import Mathlib

/-!
Verification of the ng-terminus subscription-lifecycle library.

Each section shallowly embeds one part of the TypeScript source:

* route-pattern matching (`matchesRoutePattern` in
  `src/lib/operators/take-until-route.ts`),
* the `SubscriptionManager` service,
* the `HttpRequestManager` and `retryWithBackoff` operator,
* the guarded lifecycle operators (pass-through on missing dependency),
* the `SubscriptionDebuggerService` tap observer,
* the `FormSubscriptionManager`,
* the `TestObservable` testing utility.

Pure functions become Lean functions; stateful classes become explicit
state-passing functions; observables are modelled by the event trace a
single subscriber receives.  Recursions that are not structural carry an
explicit fuel budget chosen large enough to cover every reachable run
(each step consumes at least one unit of the measure the budget bounds),
so that all definitions evaluate by kernel reduction.
-/

/-! ### Route-pattern matching

`matchesRoutePattern(url, pattern)` builds a JavaScript regex from the
pattern by three successive global string replacements

  pattern.replace(/AST-AST/g, ".*").replace(/AST/g, "[^/]*").replace(/SLASH/g, "\\/")

(AST is the asterisk, SLASH the forward slash) and then tests the
anchored regex `^...$` against the url (a full-string match).  We model
the replacement chain on character lists and interpret the resulting
regex string with a small matcher covering the regex fragment the chain
can produce on the inputs of interest (literals, escapes, `.`, negated
character classes, and the star quantifier); inputs outside that
fragment yield `none`. -/

/-- `leadsWith p l` is true when `p` is an initial segment of `l`
(the prefix test used by the global-replace scan). -/
def leadsWith : List Char → List Char → Bool
  | [], _ => true
  | _ :: _, [] => false
  | p :: ps, c :: cs => p = c && leadsWith ps cs

/-- One fuelled step of the global-replace scan; each step consumes at
least one character, so fuel = input length covers the whole scan. -/
def replaceAllGo (pat rep : List Char) : Nat → List Char → List Char
  | _, [] => []
  | 0, s => s
  | fuel + 1, c :: s =>
    if leadsWith pat (c :: s) && !pat.isEmpty then
      rep ++ replaceAllGo pat rep fuel ((c :: s).drop pat.length)
    else
      c :: replaceAllGo pat rep fuel s

/-- JavaScript `String.prototype.replace` with a global literal pattern:
left-to-right, non-overlapping, replacement text not rescanned. -/
def replaceAll (pat rep s : List Char) : List Char :=
  replaceAllGo pat rep s.length s

/-- The regex text produced for a route pattern, following the source
order exactly: first the double-asterisk is replaced by `.*`, then every
remaining asterisk by `[^/]*`, then every slash is escaped.  (The second
replacement also rewrites the asterisk inside any `.*` that the first
replacement just inserted.) -/
def toRegexChars (pattern : List Char) : List Char :=
  replaceAll ['/'] ['\\', '/']
    (replaceAll ['*'] ['[', '^', '/', ']', '*']
      (replaceAll ['*', '*'] ['.', '*'] pattern))

/-- Regex atoms appearing in the compiled route patterns. -/
inductive RTok where
  | lit (c : Char)
  | dot
  | nclass (cs : List Char)
deriving DecidableEq

/-- Lexer symbols: an atom or a star-quantifier marker. -/
inductive RSym where
  | tok (t : RTok)
  | star
deriving DecidableEq

/-- Scan a `[^...]` character-class body up to the closing `]`,
resolving backslash escapes to the escaped character. -/
def lexClass : List Char → Option (List Char × List Char)
  | [] => none
  | ']' :: rest => some ([], rest)
  | '\\' :: c :: rest => (lexClass rest).map (fun p => (c :: p.1, p.2))
  | '\\' :: [] => none
  | c :: rest => (lexClass rest).map (fun p => (c :: p.1, p.2))

/-- Characters the model does not interpret (regex metacharacters that
the replacement chain cannot produce from the inputs of interest). -/
def rmeta : List Char := ['(', ')', '+', '?', '|', '^', '$', '\x7b', '\x7d', '[', ']']

/-- Fuelled regex lexer; every step consumes at least one character, so
fuel = input length covers the whole input. -/
def lexSymsGo : Nat → List Char → Option (List RSym)
  | _, [] => some []
  | 0, _ :: _ => none
  | fuel + 1, '\\' :: c :: rest => (lexSymsGo fuel rest).map (RSym.tok (RTok.lit c) :: ·)
  | _ + 1, ['\\'] => none
  | fuel + 1, '*' :: rest => (lexSymsGo fuel rest).map (RSym.star :: ·)
  | fuel + 1, '.' :: rest => (lexSymsGo fuel rest).map (RSym.tok RTok.dot :: ·)
  | fuel + 1, '[' :: '^' :: rest =>
    (match lexClass rest with
     | none => none
     | some (cs, rest2) => (lexSymsGo fuel rest2).map (RSym.tok (RTok.nclass cs) :: ·))
  | fuel + 1, c :: rest =>
    if rmeta.contains c then none
    else (lexSymsGo fuel rest).map (RSym.tok (RTok.lit c) :: ·)

/-- Lex a regex string into atoms and star markers.  `none` on syntax
outside the modelled fragment. -/
def lexSyms (l : List Char) : Option (List RSym) :=
  lexSymsGo l.length l

/-- Attach each star quantifier to the preceding atom.  A quantifier
with no preceding atom (or a doubled quantifier) is a syntax error. -/
def attachStars : List RSym → Option (List (RTok × Bool))
  | [] => some []
  | RSym.star :: _ => none
  | RSym.tok t :: RSym.star :: rest => (attachStars rest).map ((t, true) :: ·)
  | RSym.tok t :: rest => (attachStars rest).map ((t, false) :: ·)

/-- Does a single atom match a character?  (`.` without the `s` flag
matches any character except line terminators; route paths contain
none, so it is modelled as "any character".) -/
def tokMatch : RTok → Char → Bool
  | RTok.lit c, a => a = c
  | RTok.dot, _ => true
  | RTok.nclass cs, a => !cs.contains a

/-- Fuelled anchored matcher with backtracking for starred atoms; every
step decreases items-remaining + characters-remaining, so fuel = their
sum covers the whole search. -/
def matchItemsGo : Nat → List (RTok × Bool) → List Char → Bool
  | _, [], [] => true
  | _, [], _ :: _ => false
  | _, (_, false) :: _, [] => false
  | 0, _ :: _, _ => false
  | fuel + 1, (t, false) :: rest, c :: s => tokMatch t c && matchItemsGo fuel rest s
  | fuel + 1, (t, true) :: rest, s =>
    matchItemsGo fuel rest s ||
      (match s with
       | [] => false
       | c :: s2 => tokMatch t c && matchItemsGo fuel ((t, true) :: rest) s2)

/-- Anchored (full-string) matching of a quantified-atom sequence: the
semantics of `new RegExp("^" + r + "$").test(url)` on the modelled
fragment. -/
def matchItems (items : List (RTok × Bool)) (s : List Char) : Bool :=
  matchItemsGo (s.length + items.length) items s

/-- Compile a route pattern to matcher items, `none` when the produced
regex falls outside the modelled fragment. -/
def compileRoutePattern (pattern : String) : Option (List (RTok × Bool)) :=
  (lexSyms (toRegexChars pattern.data)).bind attachStars

/-- Model of `matchesRoutePattern(url, pattern)`. -/
def matchesRoutePattern (url pattern : String) : Option Bool :=
  (compileRoutePattern pattern).map (fun items => matchItems items url.data)

/-- C1.  The route pattern `"/dashboard/**"` is claimed to match
`/dashboard/settings/profile` (double asterisk = any number of
segments) and to reject `/dashboard-other`.  In the code, the second
replacement rewrites the asterisk of the `.*` just inserted for the
double asterisk, so the compiled regex is `^\/dashboard\/.[^\/]*$`: it
requires exactly one further segment after `/dashboard/` and REJECTS
`/dashboard/settings/profile`, contradicting the claim and the code's
own comment that the double asterisk "matches anything including /".
(It does reject `/dashboard-other`, and accepts the single-segment
`/dashboard/settings`.) -/
theorem matchesRoutePattern_doubleStar_bug :
    toRegexChars "/dashboard/**".data =
      ['\\', '/', 'd', 'a', 's', 'h', 'b', 'o', 'a', 'r', 'd', '\\', '/',
       '.', '[', '^', '\\', '/', ']', '*'] ∧
    matchesRoutePattern "/dashboard/settings/profile" "/dashboard/**" = some false ∧
    matchesRoutePattern "/dashboard-other" "/dashboard/**" = some false ∧
    matchesRoutePattern "/dashboard/settings" "/dashboard/**" = some true := by
  refine ⟨by decide, by decide, by decide, by decide⟩

/-! ### SubscriptionManager

`SubscriptionManager` keeps a `Set<Subscription>` and a destroyed flag.
Subscription handles are modelled as indices into a `World` that
records, per handle, how many times its teardown has run.  RxJS
`Subscription.unsubscribe` is guarded by the `closed` flag, so a handle
is closed iff its count is nonzero and the count can only ever reach 1. -/

abbrev World := Nat → Nat

/-- `Subscription.unsubscribe`: a no-op on a closed handle, otherwise
runs the teardown (incrementing the count from 0 to 1) and thereby
marks the handle closed. -/
def unsubscribeSub (w : World) (i : Nat) : World :=
  if w i = 0 then fun j => if j = i then 1 else w j else w

structure SubscriptionManager where
  subscriptions : List Nat
  isDestroyed : Bool
deriving DecidableEq

/-- `add(...subscriptions)`: after destroy, warn and immediately
unsubscribe everything passed in; otherwise register each handle that
is not already closed (set semantics, no duplicates).  The returned
`Bool` records whether the warning was emitted. -/
def SubscriptionManager.add (m : SubscriptionManager) (w : World) (xs : List Nat) :
    SubscriptionManager × World × Bool :=
  if m.isDestroyed then
    (m, xs.foldl unsubscribeSub w, true)
  else
    let regd := xs.foldl
      (fun l i => if w i = 0 then (if l.contains i then l else l ++ [i]) else l)
      m.subscriptions
    ({ m with subscriptions := regd }, w, false)

/-- `unsubscribeAll()`: unsubscribe every registered non-closed handle,
then clear the set.  It does NOT touch the destroyed flag. -/
def SubscriptionManager.unsubscribeAll (m : SubscriptionManager) (w : World) :
    SubscriptionManager × World :=
  ({ m with subscriptions := [] }, m.subscriptions.foldl unsubscribeSub w)

/-- `ngOnDestroy()`: set the destroyed flag, then `unsubscribeAll`. -/
def SubscriptionManager.ngOnDestroy (m : SubscriptionManager) (w : World) :
    SubscriptionManager × World :=
  SubscriptionManager.unsubscribeAll { m with isDestroyed := true } w

/-- `activeCount` getter: counts the non-closed handles and, when any
closed handle is present, rebuilds the set from the non-closed ones. -/
def SubscriptionManager.activeCount (m : SubscriptionManager) (w : World) :
    Nat × SubscriptionManager :=
  let active := m.subscriptions.filter (fun i => w i == 0)
  (active.length,
   if active.length ≠ m.subscriptions.length then { m with subscriptions := active } else m)

/-- `hasActiveSubscriptions` getter: `activeCount > 0` (and hence the
same reconciling side effect). -/
def SubscriptionManager.hasActiveSubscriptions (m : SubscriptionManager) (w : World) :
    Bool × SubscriptionManager :=
  let r := SubscriptionManager.activeCount m w
  (decide (0 < r.1), r.2)

theorem unsubscribeSub_self_ne_zero (w : World) (i : Nat) : unsubscribeSub w i i ≠ 0 := by
  unfold unsubscribeSub
  by_cases h : w i = 0 <;> simp [h]

theorem unsubscribeSub_preserve {w : World} {i : Nat} (j : Nat) (h : w i ≠ 0) :
    unsubscribeSub w j i ≠ 0 := by
  unfold unsubscribeSub
  by_cases hj : w j = 0
  · simp only [hj, if_true]
    by_cases hij : i = j
    · simp [hij]
    · simpa [hij] using h
  · simpa [hj] using h

theorem foldl_unsub_preserve {w : World} {i : Nat} (xs : List Nat) (h : w i ≠ 0) :
    xs.foldl unsubscribeSub w i ≠ 0 := by
  induction xs generalizing w with
  | nil => simpa using h
  | cons x t ih => exact ih (unsubscribeSub_preserve x h)

theorem foldl_unsub_closes {i : Nat} (xs : List Nat) (w : World) (h : i ∈ xs) :
    xs.foldl unsubscribeSub w i ≠ 0 := by
  induction xs generalizing w with
  | nil => cases h
  | cons x t ih =>
    rcases List.mem_cons.mp h with h1 | h2
    · subst h1
      exact foldl_unsub_preserve t (unsubscribeSub_self_ne_zero w i)
    · exact ih (unsubscribeSub w x) h2

/-- Characterization of the `activeCount` getter: the returned count is
the number of non-closed registered handles and the reconciled set is
exactly the non-closed sublist (in both branches of the source's
length test). -/
theorem activeCount_eq (m : SubscriptionManager) (w : World) :
    SubscriptionManager.activeCount m w =
      ((m.subscriptions.filter fun i => w i == 0).length,
       { m with subscriptions := m.subscriptions.filter fun i => w i == 0 }) := by
  unfold SubscriptionManager.activeCount
  by_cases h : (m.subscriptions.filter fun i => w i == 0).length = m.subscriptions.length
  · have hf : m.subscriptions.filter (fun i => w i == 0) = m.subscriptions :=
      (List.filter_sublist _).eq_of_length h
    simp [h, hf]
  · simp [h]

/-- The world in which every subscription handle starts open. -/
def c2World : World := fun _ => 0

/-- Concrete C2 scenario, step 1: a fresh manager registers the open
handle 0. -/
def c2Step1 : SubscriptionManager × World × Bool :=
  SubscriptionManager.add ⟨[], false⟩ c2World [0]

/-- Step 2: a manual `unsubscribeAll()` — teardown without destroy. -/
def c2Step2 : SubscriptionManager × World :=
  SubscriptionManager.unsubscribeAll c2Step1.1 c2Step1.2.1

/-- Step 3: `add` of the open handle 1 after that teardown. -/
def c2Step3 : SubscriptionManager × World × Bool :=
  SubscriptionManager.add c2Step2.1 c2Step2.2 [1]

/-- C2 counterexample.  A manager that has had `unsubscribeAll()` (but
not `ngOnDestroy`) still registers subsequently added subscriptions:
after `add` of the open handle 1, `activeCount` reads 1 (not 0), the
handle is still open, and no warning was emitted — refuting the claim
that teardown via `unsubscribeAll` alone makes a later `add` close its
arguments, warn, and keep `activeCount` at 0. -/
theorem add_after_unsubscribeAll_registers :
    (SubscriptionManager.activeCount c2Step3.1 c2Step3.2.1).1 = 1 ∧
    c2Step3.2.1 1 = 0 ∧
    c2Step3.2.2 = false := by
  refine ⟨by decide, by decide, by decide⟩

/-- C2 (amended).  After the component-destroy teardown `ngOnDestroy`
(which sets the destroyed flag and runs `unsubscribeAll`), every
subsequent `add` registers nothing, immediately closes each passed-in
subscription, reports the warning, and leaves `activeCount` at 0. -/
theorem add_after_destroy_closes (m : SubscriptionManager) (w : World) (xs : List Nat) :
    (SubscriptionManager.add (SubscriptionManager.ngOnDestroy m w).1
        (SubscriptionManager.ngOnDestroy m w).2 xs).2.2 = true ∧
    (SubscriptionManager.add (SubscriptionManager.ngOnDestroy m w).1
        (SubscriptionManager.ngOnDestroy m w).2 xs).1.subscriptions = [] ∧
    (∀ i ∈ xs,
      (SubscriptionManager.add (SubscriptionManager.ngOnDestroy m w).1
          (SubscriptionManager.ngOnDestroy m w).2 xs).2.1 i ≠ 0) ∧
    (SubscriptionManager.activeCount
        (SubscriptionManager.add (SubscriptionManager.ngOnDestroy m w).1
            (SubscriptionManager.ngOnDestroy m w).2 xs).1
        (SubscriptionManager.add (SubscriptionManager.ngOnDestroy m w).1
            (SubscriptionManager.ngOnDestroy m w).2 xs).2.1).1 = 0 := by
  refine ⟨?_, ?_, ?_, ?_⟩
  · simp [SubscriptionManager.ngOnDestroy, SubscriptionManager.unsubscribeAll,
      SubscriptionManager.add]
  · simp [SubscriptionManager.ngOnDestroy, SubscriptionManager.unsubscribeAll,
      SubscriptionManager.add]
  · intro i hi
    simpa [SubscriptionManager.ngOnDestroy, SubscriptionManager.unsubscribeAll,
      SubscriptionManager.add] using foldl_unsub_closes xs _ hi
  · simp [SubscriptionManager.ngOnDestroy, SubscriptionManager.unsubscribeAll,
      SubscriptionManager.add, SubscriptionManager.activeCount]

/-- C6.  Reading `activeCount` (or `hasActiveSubscriptions`) returns
the number of currently non-closed registered subscriptions and, as a
side effect, drops every closed entry from the set; after the read the
set holds only open handles, and a repeated read returns the same
count and changes nothing further. -/
theorem activeCount_reconciles (m : SubscriptionManager) (w : World) :
    (SubscriptionManager.activeCount m w).1 =
      (m.subscriptions.filter fun i => w i == 0).length ∧
    ((SubscriptionManager.activeCount m w).2).subscriptions =
      m.subscriptions.filter (fun i => w i == 0) ∧
    (∀ i ∈ ((SubscriptionManager.activeCount m w).2).subscriptions, w i = 0) ∧
    SubscriptionManager.activeCount ((SubscriptionManager.activeCount m w).2) w =
      SubscriptionManager.activeCount m w ∧
    ((SubscriptionManager.hasActiveSubscriptions m w).1 = true ↔
      0 < (SubscriptionManager.activeCount m w).1) ∧
    (SubscriptionManager.hasActiveSubscriptions m w).2 =
      (SubscriptionManager.activeCount m w).2 := by
  refine ⟨?_, ?_, ?_, ?_, ?_, ?_⟩
  · rw [activeCount_eq]
  · rw [activeCount_eq]
  · intro i hi
    rw [activeCount_eq] at hi
    simp only [List.mem_filter, beq_iff_eq] at hi
    exact hi.2
  · simp only [activeCount_eq]
    simp [List.filter_filter]
  · simp [SubscriptionManager.hasActiveSubscriptions]
  · rfl

/-! ### Cancellation subjects and HttpRequestManager

A cancellation signal is an RxJS `Subject<void>`: `next()` on a stopped
subject is a no-op, `complete()` stops it.  `firedCount` counts the
fire events delivered downstream (each one is one teardown of the bound
stream via `takeUntil`). -/

structure SubjState where
  stopped : Bool
  firedCount : Nat
deriving DecidableEq

/-- `Subject.next()`: delivers one fire event unless already stopped. -/
def SubjState.nextFire (s : SubjState) : SubjState :=
  if s.stopped then s else { s with firedCount := s.firedCount + 1 }

/-- `Subject.complete()`: stops the subject. -/
def SubjState.completeSubj (s : SubjState) : SubjState :=
  { s with stopped := true }

/-- Firing a cancellation signal is `next()` then `complete()` (the body
of `cancel()` / `cancelRequest` / `unsubscribe(name)`). -/
def fireSignal (s : SubjState) : SubjState :=
  SubjState.completeSubj (SubjState.nextFire s)

/-- A subject that has never fired. -/
def freshSubj : SubjState := ⟨false, 0⟩

abbrev SubjWorld := Nat → SubjState

def updateSubj (sw : SubjWorld) (k : Nat) (f : SubjState → SubjState) : SubjWorld :=
  fun j => if j = k then f (sw j) else sw j

/-- Association-list lookup, the model of `Map.get`. -/
def lookupKey (l : List (String × Nat)) (x : String) : Option Nat :=
  (l.find? (fun p => p.1 == x)).map Prod.snd

/-- Association-list removal, the model of `Map.delete`. -/
def delKey (l : List (String × Nat)) (x : String) : List (String × Nat) :=
  l.filter (fun p => p.1 != x)

/-- `HttpRequestManager` state: the `pendingRequests` map from request
id to the index of its cancellation subject. -/
structure HttpMgr where
  pending : List (String × Nat)
  requestCounter : Nat
deriving DecidableEq

/-- `cancelRequest(requestId)`: if the id is pending, fire its subject
and delete the map entry; otherwise do nothing. -/
def HttpMgr.cancelRequest (m : HttpMgr) (sw : SubjWorld) (x : String) :
    HttpMgr × SubjWorld :=
  match lookupKey m.pending x with
  | some k => ({ m with pending := delKey m.pending x }, updateSubj sw k fireSignal)
  | none => (m, sw)

/-- The `cancel` closure returned by `createCancellableRequest`: it
unconditionally fires its captured subject (both calls are no-ops on a
stopped subject) and deletes its id from the pending map. -/
def cancelHandle (m : HttpMgr) (sw : SubjWorld) (x : String) (k : Nat) :
    HttpMgr × SubjWorld :=
  ({ m with pending := delKey m.pending x }, updateSubj sw k fireSignal)

theorem fireSignal_idem (s : SubjState) : fireSignal (fireSignal s) = fireSignal s := by
  unfold fireSignal SubjState.nextFire SubjState.completeSubj
  by_cases h : s.stopped <;> simp [h]

theorem lookupKey_delKey (l : List (String × Nat)) (x : String) :
    lookupKey (delKey l x) x = none := by
  unfold lookupKey delKey
  have hn : (l.filter (fun p => p.1 != x)).find? (fun p => p.1 == x) = none := by
    rw [List.find?_eq_none]
    intro p hp
    have := (List.mem_filter.mp hp).2
    simpa using this
  rw [hn]
  rfl

theorem delKey_idem (l : List (String × Nat)) (x : String) :
    delKey (delKey l x) x = delKey l x := by
  unfold delKey
  rw [List.filter_filter]
  simp

theorem updateSubj_fire_idem (sw : SubjWorld) (k : Nat) :
    updateSubj (updateSubj sw k fireSignal) k fireSignal = updateSubj sw k fireSignal := by
  funext j
  unfold updateSubj
  by_cases h : j = k <;> simp [h, fireSignal_idem]

/-- C5.  Cancellation is idempotent for every handle: firing a signal
twice equals firing it once; iterated firing of a fresh signal delivers
exactly one teardown event; a second `cancelRequest(id)` is a no-op; a
second call of a request's `cancel()` closure changes nothing; and an
already-closed managed subscription's `unsubscribe` is a no-op, with
the teardown having run exactly once however often it is repeated. -/
theorem cancellation_idempotent :
    (∀ s : SubjState, fireSignal (fireSignal s) = fireSignal s) ∧
    (∀ n : Nat, fireSignal^[n + 1] freshSubj = ⟨true, 1⟩) ∧
    (∀ (m : HttpMgr) (sw : SubjWorld) (x : String),
      HttpMgr.cancelRequest (HttpMgr.cancelRequest m sw x).1
          (HttpMgr.cancelRequest m sw x).2 x =
        HttpMgr.cancelRequest m sw x) ∧
    (∀ (m : HttpMgr) (sw : SubjWorld) (x : String) (k : Nat),
      cancelHandle (cancelHandle m sw x k).1 (cancelHandle m sw x k).2 x k =
        cancelHandle m sw x k) ∧
    (∀ (w : World) (i : Nat),
      unsubscribeSub (unsubscribeSub w i) i = unsubscribeSub w i) ∧
    (∀ (n : Nat) (w : World) (i : Nat),
      (fun ww => unsubscribeSub ww i)^[n + 1] w i = if w i = 0 then 1 else w i) := by
  refine ⟨fireSignal_idem, ?_, ?_, ?_, ?_, ?_⟩
  · intro n
    induction n with
    | zero => rfl
    | succ k ih =>
      rw [Function.iterate_succ_apply']
      rw [ih]
      rfl
  · intro m sw x
    unfold HttpMgr.cancelRequest
    cases hl : lookupKey m.pending x with
    | none => simp [hl]
    | some k =>
      simp only [hl]
      rw [lookupKey_delKey]
  · intro m sw x k
    simp [cancelHandle, delKey_idem, updateSubj_fire_idem]
  · intro w i
    unfold unsubscribeSub
    by_cases h : w i = 0 <;> simp [h]
  · intro n w i
    induction n generalizing w with
    | zero =>
      simp only [Function.iterate_succ_apply, Function.iterate_zero_apply]
      unfold unsubscribeSub
      by_cases h : w i = 0 <;> simp [h]
    | succ k ih =>
      rw [Function.iterate_succ_apply]
      rw [ih]
      unfold unsubscribeSub
      by_cases h : w i = 0 <;> simp [h]


/-! ### retryWithBackoff

`retryWithBackoff(maxRetries, initialDelay, maxDelay)` pipes the source
through `catchError((error, caught) => ...)`.  `caught` is the output
observable of that very `catchError`, so the retry resubscribes
`caught.pipe(retryWithBackoff(maxRetries - 1, ...))`: the original
catch (with the original `maxRetries`) stays innermost and sees every
later error first.  The wait is
`Math.min(initialDelay * Math.pow(2, 3 - maxRetries), maxDelay)` with
the literal 3, not an attempt counter.  We model one subscription of
the resulting observable as a step-indexed run: sources are indexed by
invocation (fresh subscription) number, and `none` means the step
budget ran out with the run still in flight — a run that never returns
`some` for any budget never terminates. -/

inductive RTerm (ε : Type) where
  | ok
  | err (e : ε)
deriving DecidableEq

/-- One subscription of a source operation: the values it emits, then
how it terminates. -/
structure SrcRun (ε α : Type) where
  vals : List α
  term : RTerm ε
deriving DecidableEq

/-- A source operation, per fresh-invocation index. -/
abbrev Source (ε α : Type) := Nat → SrcRun ε α

/-- Observable expressions reachable from `retryWithBackoff`: the
source, or a `retryWithBackoff m` layer over another expression. -/
inductive RObs where
  | src
  | retry (m : Nat) (o : RObs)
deriving DecidableEq

/-- A dyadic rational `num / 2^exp`, the exact value of the IEEE-double
delay computations `initialDelay * Math.pow(2, 3 - maxRetries)` for
natural-number delays (exact at these magnitudes). -/
structure Dy where
  num : Nat
  exp : Nat
deriving DecidableEq

/-- Value comparison of dyadic rationals. -/
def Dy.leB (a b : Dy) : Bool :=
  a.num * 2 ^ b.exp ≤ b.num * 2 ^ a.exp

/-- The value of a dyadic rational as a rational number. -/
def Dy.val (d : Dy) : ℚ :=
  (d.num : ℚ) / 2 ^ d.exp

/-- The wait computed by the code:
`Math.min(initialDelay * Math.pow(2, 3 - maxRetries), maxDelay)`
(exponent `3 - m` over the integers, hence a fraction for `m > 3`). -/
def backoffDelay (I D : Nat) (m : Nat) : Dy :=
  let p : Dy := if m ≤ 3 then ⟨I * 2 ^ (3 - m), 0⟩ else ⟨I, m - 3⟩
  if Dy.leB p ⟨D, 0⟩ then p else ⟨D, 0⟩

/-- Result of one finished subscription: the next fresh-invocation
index, the values delivered downstream, the backoff waits performed (in
ms), and the terminal event. -/
structure RunOut (ε α : Type) where
  invocs : Nat
  vals : List α
  delays : List Dy
  term : RTerm ε
deriving DecidableEq

/-- Step-indexed run of one subscription of an `RObs` expression.
Subscribing `retry m o` subscribes `o`; a terminal error with `m = 0`
is rethrown unchanged (`throwError(() => error)`); with `m ≠ 0` the
code waits `backoffDelay` and subscribes
`caught.pipe(retryWithBackoff(m-1)) = retry (m-1) (retry m o)`, whose
events continue to the same subscriber (the replacement observable's
own terminal event is not re-caught by this layer). -/
def runRetry (I D : Nat) (S : Source ε α) : Nat → RObs → Nat → Option (RunOut ε α)
  | 0, _, _ => none
  | _ + 1, RObs.src, n => some ⟨n + 1, (S n).vals, [], (S n).term⟩
  | fuel + 1, RObs.retry m o, n =>
    match runRetry I D S fuel o n with
    | none => none
    | some r =>
      match r.term with
      | RTerm.ok => some r
      | RTerm.err e =>
        if m = 0 then some ⟨r.invocs, r.vals, r.delays, RTerm.err e⟩
        else
          match runRetry I D S fuel (RObs.retry (m - 1) (RObs.retry m o)) r.invocs with
          | none => none
          | some r2 =>
            some ⟨r2.invocs, r.vals ++ r2.vals,
                  r.delays ++ backoffDelay I D m :: r2.delays, r2.term⟩

/-- One-step unfolding of `runRetry` on a retry layer. -/
theorem runRetry_step {ε α : Type} (I D : Nat) (S : Source ε α) (fuel m : Nat)
    (o : RObs) (n : Nat) :
    runRetry I D S (fuel + 1) (RObs.retry m o) n =
      match runRetry I D S fuel o n with
      | none => none
      | some r =>
        match r.term with
        | RTerm.ok => some r
        | RTerm.err e =>
          if m = 0 then some ⟨r.invocs, r.vals, r.delays, RTerm.err e⟩
          else
            match runRetry I D S fuel (RObs.retry (m - 1) (RObs.retry m o)) r.invocs with
            | none => none
            | some r2 =>
              some ⟨r2.invocs, r.vals ++ r2.vals,
                    r.delays ++ backoffDelay I D m :: r2.delays, r2.term⟩ := rfl

/-- A source that fails on its first two invocations and then emits
`"ok"` and completes. -/
def failTwiceSrc : Source String String := fun n =>
  if n = 0 then ⟨[], RTerm.err "e1"⟩
  else if n = 1 then ⟨[], RTerm.err "e2"⟩
  else ⟨["ok"], RTerm.ok⟩

/-- C3.  With `retryWithBackoff(3, 100, 1000)` over a source failing
twice then succeeding, the source is invoked exactly 3 times and the
success value is delivered (as the claim states), but the observed
waits are 100ms and 100ms — NOT 100ms then 200ms: the second error is
again caught by the innermost `catchError`, whose `maxRetries` is
still 3, so every wait is `min(100 * 2^(3-3), 1000) = 100`.  The
exponent is the literal `3 - maxRetries`, not an attempt counter, so
the claimed delay law `min(initialDelay * 2^attempt, maxDelay)` also
fails for every top-level `maxRetries` other than 3. -/
theorem retryWithBackoff_constant_delays :
    runRetry 100 1000 failTwiceSrc 20 (RObs.retry 3 RObs.src) 0 =
      some ⟨3, ["ok"], [⟨100, 0⟩, ⟨100, 0⟩], RTerm.ok⟩ ∧
    ((runRetry 100 1000 failTwiceSrc 20 (RObs.retry 3 RObs.src) 0).map
        (fun r => r.delays.map Dy.val)) = some [100, 100] := by
  refine ⟨by decide, ?_⟩
  have h : runRetry 100 1000 failTwiceSrc 20 (RObs.retry 3 RObs.src) 0 =
      some ⟨3, ["ok"], [⟨100, 0⟩, ⟨100, 0⟩], RTerm.ok⟩ := by decide
  rw [h]
  simp [Dy.val]

/-- A source that errors on every invocation. -/
def alwaysFailSrc : Source String String := fun _ => ⟨[], RTerm.err "boom"⟩

/-- Expressions whose innermost retry layer (the one that catches every
source error first) still has retries: once subscribed, such an
expression retries forever over an always-failing source. -/
def innerActive : RObs → Bool
  | RObs.src => false
  | RObs.retry m RObs.src => m != 0
  | RObs.retry _ (RObs.retry m o) => innerActive (RObs.retry m o)

theorem runRetry_alwaysFail_none (I D : Nat) :
    ∀ (fuel : Nat) (o : RObs) (n : Nat), innerActive o = true →
      runRetry I D alwaysFailSrc fuel o n = none := by
  intro fuel
  induction fuel with
  | zero => intro o n h; rfl
  | succ f ih =>
    intro o n h
    cases o with
    | src => simp [innerActive] at h
    | retry m o2 =>
      cases o2 with
      | src =>
        have hm : m ≠ 0 := by simpa [innerActive] using h
        cases f with
        | zero => rfl
        | succ f2 =>
          have hrec := ih (RObs.retry (m - 1) (RObs.retry m RObs.src)) (n + 1)
            (by simp [innerActive, hm])
          rw [runRetry_step]
          have hsrc : runRetry I D alwaysFailSrc (f2 + 1) RObs.src n =
              some ⟨n + 1, [], [], RTerm.err "boom"⟩ := rfl
          rw [hsrc]
          simp [hm, hrec]
      | retry m2 o3 =>
        have h2 : innerActive (RObs.retry m2 o3) = true := by simpa [innerActive] using h
        have hrec := ih (RObs.retry m2 o3) n h2
        rw [runRetry_step, hrec]

/-- C4.  With any positive `maxRetries`, retries are never exhausted:
over an always-failing source, `retryWithBackoff(1, 100, 1000)` never
finishes for any step budget (every error is caught by the original
innermost `catchError`, whose `maxRetries` is still 1), so the terminal
error is never propagated to the caller.  Only a non-positive
`maxRetries` propagates the error — then indeed unchanged. -/
theorem retryWithBackoff_never_exhausts :
    (∀ fuel : Nat,
      runRetry 100 1000 alwaysFailSrc fuel (RObs.retry 1 RObs.src) 0 = none) ∧
    runRetry 100 1000 alwaysFailSrc 3 (RObs.retry 0 RObs.src) 0 =
      some ⟨1, [], [], RTerm.err "boom"⟩ := by
  refine ⟨fun fuel =>
    runRetry_alwaysFail_none 100 1000 fuel (RObs.retry 1 RObs.src) 0 (by decide),
    by decide⟩

/-! ### Guarded lifecycle operators

Each lifecycle operator injects its dependency with
`inject(Dep, { optional: true })` and starts with the same guard:

  if (!dep) { console.warn("<name>: <Dep> not available, operator will have no effect"); return source; }

returning the source observable itself — a pass-through — and otherwise
pipes the source through a dependency-specific transformation.  The
transformation of the some-branch is kept as a parameter here (its
timing semantics is not at issue); each operator definition fixes the
exact warning text from the source.  All definitions are total — no
path throws. -/

def guardedOperator {ρ σ : Type} (dep : Option ρ) (warnMsg : String)
    (transform : ρ → σ → σ) (source : σ) : σ × List String :=
  match dep with
  | none => (source, [warnMsg])
  | some d => (transform d source, [])

def takeUntilRoute {ρ σ : Type} (router : Option ρ) (transform : ρ → σ → σ)
    (source : σ) : σ × List String :=
  guardedOperator router
    "takeUntilRoute: Router not available, operator will have no effect"
    transform source

def takeWhileOnRoute {ρ σ : Type} (router : Option ρ) (transform : ρ → σ → σ)
    (source : σ) : σ × List String :=
  guardedOperator router
    "takeWhileOnRoute: Router not available, operator will have no effect"
    transform source

def takeWhileVisible {ρ σ : Type} (document : Option ρ) (transform : ρ → σ → σ)
    (source : σ) : σ × List String :=
  guardedOperator document
    "takeWhileVisible: Document not available, operator will have no effect"
    transform source

def takeUntilHidden {ρ σ : Type} (document : Option ρ) (transform : ρ → σ → σ)
    (source : σ) : σ × List String :=
  guardedOperator document
    "takeUntilHidden: Document not available, operator will have no effect"
    transform source

def throttleWhileHidden {ρ σ : Type} (document : Option ρ) (transform : ρ → σ → σ)
    (source : σ) : σ × List String :=
  guardedOperator document
    "throttleWhileHidden: Document not available, operator will have no effect"
    transform source

def takeUntilFormDestroyed {ρ σ : Type} (destroyRef : Option ρ) (transform : ρ → σ → σ)
    (source : σ) : σ × List String :=
  guardedOperator destroyRef
    "takeUntilFormDestroyed: DestroyRef not available, operator will have no effect"
    transform source

def cancelOnDestroy {ρ σ : Type} (destroyRef : Option ρ) (transform : ρ → σ → σ)
    (source : σ) : σ × List String :=
  guardedOperator destroyRef
    "cancelOnDestroy: DestroyRef not available, operator will have no effect"
    transform source

/-- C7.  When the required injected dependency is unavailable, each of
the seven guarded operators returns the source observable itself (so
every value, error and completion is forwarded unchanged) together with
exactly one warning, and never throws (all definitions are total). -/
theorem guarded_operators_passthrough {ρ σ : Type} (transform : ρ → σ → σ) (source : σ) :
    takeUntilRoute (none : Option ρ) transform source =
      (source, ["takeUntilRoute: Router not available, operator will have no effect"]) ∧
    takeWhileOnRoute (none : Option ρ) transform source =
      (source, ["takeWhileOnRoute: Router not available, operator will have no effect"]) ∧
    takeWhileVisible (none : Option ρ) transform source =
      (source, ["takeWhileVisible: Document not available, operator will have no effect"]) ∧
    takeUntilHidden (none : Option ρ) transform source =
      (source, ["takeUntilHidden: Document not available, operator will have no effect"]) ∧
    throttleWhileHidden (none : Option ρ) transform source =
      (source, ["throttleWhileHidden: Document not available, operator will have no effect"]) ∧
    takeUntilFormDestroyed (none : Option ρ) transform source =
      (source, ["takeUntilFormDestroyed: DestroyRef not available, operator will have no effect"]) ∧
    cancelOnDestroy (none : Option ρ) transform source =
      (source, ["cancelOnDestroy: DestroyRef not available, operator will have no effect"]) :=
  ⟨rfl, rfl, rfl, rfl, rfl, rfl, rfl⟩

/-! ### SubscriptionDebuggerService

`debugSubscription(source, options)` returns the source unchanged when
debugging is disabled; when enabled it registers a `DebugInfo` record
and pipes the source through `tap({...})` (counter updates only),
`finalize` (marks the record inactive) and `share()`.  For one
subscription, each of those forwards every event unchanged and in
order; the observer only mutates the side-channel record. -/

inductive Ev (ε α : Type) where
  | next (a : α)
  | fail (e : ε)
  | done
deriving DecidableEq

/-- The debug record fields the observer mutates (timestamps elided:
they never influence the stream). -/
structure DebugInfo where
  emissionCount : Nat
  errorCount : Nat
  isActive : Bool
deriving DecidableEq

def initInfo : DebugInfo := ⟨0, 0, true⟩

/-- The tap observer's side effect for one event. -/
def tapStep (i : DebugInfo) : Ev ε α → DebugInfo
  | Ev.next _ => { i with emissionCount := i.emissionCount + 1 }
  | Ev.fail _ => { i with errorCount := i.errorCount + 1 }
  | Ev.done => i

/-- `tap`: forwards each event unchanged to the subscriber, running the
observer side effect synchronously alongside it. -/
def tapRun (i : DebugInfo) : List (Ev ε α) → List (Ev ε α) × DebugInfo
  | [] => ([], i)
  | e :: es =>
    let r := tapRun (tapStep i e) es
    (e :: r.1, r.2)

/-- `finalize`: marks the record inactive at teardown. -/
def finalizeInfo (i : DebugInfo) : DebugInfo :=
  { i with isActive := false }

def isTerminalEv : Ev ε α → Bool
  | Ev.next _ => false
  | _ => true

def isNextEv : Ev ε α → Bool
  | Ev.next _ => true
  | _ => false

def isFailEv : Ev ε α → Bool
  | Ev.fail _ => true
  | _ => false

/-- One subscription of `debugSubscription(source)`: the events the
subscriber receives and the resulting debug record (`none` when
disabled: the source is returned unmodified). -/
def debugSubscription (enabled : Bool) (events : List (Ev ε α)) :
    List (Ev ε α) × Option DebugInfo :=
  if enabled then
    let r := tapRun initInfo events
    (r.1, some (if events.any isTerminalEv then finalizeInfo r.2 else r.2))
  else (events, none)

theorem tapRun_fst {ε α : Type} (i : DebugInfo) (es : List (Ev ε α)) :
    (tapRun i es).1 = es := by
  induction es generalizing i with
  | nil => rfl
  | cons e t ih => simp [tapRun, ih]

theorem tapRun_emissionCount {ε α : Type} (i : DebugInfo) (es : List (Ev ε α)) :
    (tapRun i es).2.emissionCount = i.emissionCount + es.countP isNextEv := by
  induction es generalizing i with
  | nil => simp [tapRun]
  | cons e t ih =>
    cases e <;>
      simp [tapRun, ih, tapStep, List.countP_cons, isNextEv] <;> omega

theorem tapRun_errorCount {ε α : Type} (i : DebugInfo) (es : List (Ev ε α)) :
    (tapRun i es).2.errorCount = i.errorCount + es.countP isFailEv := by
  induction es generalizing i with
  | nil => simp [tapRun]
  | cons e t ih =>
    cases e <;>
      simp [tapRun, ih, tapStep, List.countP_cons, isFailEv] <;> omega

/-- C8.  When debugging is enabled, the debugged stream delivers to its
subscriber exactly the source's events — same values, same order, same
error, completion at the same point — while the record only accumulates
the side-channel counters (emission count = number of value events,
error count = number of error events); when disabled the source is
returned unmodified. -/
theorem debugSubscription_passthrough {ε α : Type} (events : List (Ev ε α)) :
    (debugSubscription true events).1 = events ∧
    ((debugSubscription true events).2.map DebugInfo.emissionCount) =
      some (events.countP isNextEv) ∧
    ((debugSubscription true events).2.map DebugInfo.errorCount) =
      some (events.countP isFailEv) ∧
    debugSubscription false events = (events, none) := by
  refine ⟨?_, ?_, ?_, rfl⟩
  · simp [debugSubscription, tapRun_fst]
  · by_cases h : events.any isTerminalEv <;>
      simp [debugSubscription, h, finalizeInfo, tapRun_emissionCount, initInfo]
  · by_cases h : events.any isTerminalEv <;>
      simp [debugSubscription, h, finalizeInfo, tapRun_errorCount, initInfo]

/-! ### TestObservable

`TestObservable` guards every mutation with
`!this.isCompleted && !this.hasErrored`; `log` records the
notifications delivered to subscribers through the inner subject. -/

structure TestObs (ε α : Type) where
  isCompleted : Bool
  hasErrored : Bool
  log : List (Ev ε α)
deriving DecidableEq

/-- `emit(value)`. -/
def TestObs.emit (t : TestObs ε α) (v : α) : TestObs ε α :=
  if !t.isCompleted && !t.hasErrored then { t with log := t.log ++ [Ev.next v] } else t

/-- `complete()`. -/
def TestObs.completeObs (t : TestObs ε α) : TestObs ε α :=
  if !t.isCompleted && !t.hasErrored then
    { t with isCompleted := true, log := t.log ++ [Ev.done] }
  else t

/-- `error(err)`. -/
def TestObs.errorObs (t : TestObs ε α) (e : ε) : TestObs ε α :=
  if !t.isCompleted && !t.hasErrored then
    { t with hasErrored := true, log := t.log ++ [Ev.fail e] }
  else t

/-- `emitSequence(values, delayMs)`: emits the values in order,
re-checking the terminal flags before each step (the delay only
schedules the steps and is elided). -/
def TestObs.emitSequence (t : TestObs ε α) : List α → TestObs ε α
  | [] => t
  | v :: vs =>
    if !t.isCompleted && !t.hasErrored then TestObs.emitSequence (t.emit v) vs else t

/-- `getState()`. -/
def TestObs.getState (t : TestObs ε α) : Bool × Bool :=
  (t.isCompleted, t.hasErrored)

/-- C10.  The terminal states are absorbing: once `complete()` or
`error()` has run, every subsequent `emit`, `emitSequence`, `complete`
or `error` leaves the whole state — including the notification log
subscribers see and the flags `getState()` reports — unchanged. -/
theorem testObservable_terminal_absorbing {ε α : Type} (t : TestObs ε α) (v : α)
    (vs : List α) (e : ε) (h : t.isCompleted = true ∨ t.hasErrored = true) :
    t.emit v = t ∧ t.completeObs = t ∧ t.errorObs e = t ∧ t.emitSequence vs = t ∧
    (t.emitSequence vs).getState = t.getState := by
  have hg : (!t.isCompleted && !t.hasErrored) = false := by
    rcases h with h | h <;> simp [h]
  have hseq : t.emitSequence vs = t := by
    cases vs with
    | nil => rfl
    | cons v2 t2 => simp [TestObs.emitSequence, hg]
  refine ⟨?_, ?_, ?_, hseq, by rw [hseq]⟩
  · simp [TestObs.emit, hg]
  · simp [TestObs.completeObs, hg]
  · simp [TestObs.errorObs, hg]

/-- C10 witness: an already-completed observable at concrete inputs. -/
theorem testObservable_terminal_absorbing_witness :
    ((⟨true, false, []⟩ : TestObs Nat Nat).isCompleted = true ∨
      (⟨true, false, []⟩ : TestObs Nat Nat).hasErrored = true) ∧
    ((⟨true, false, []⟩ : TestObs Nat Nat).emit 5 = ⟨true, false, []⟩ ∧
      (⟨true, false, []⟩ : TestObs Nat Nat).completeObs = ⟨true, false, []⟩ ∧
      (⟨true, false, []⟩ : TestObs Nat Nat).errorObs 7 = ⟨true, false, []⟩ ∧
      (⟨true, false, []⟩ : TestObs Nat Nat).emitSequence [1, 2] = ⟨true, false, []⟩ ∧
      ((⟨true, false, []⟩ : TestObs Nat Nat).emitSequence [1, 2]).getState =
        (⟨true, false, []⟩ : TestObs Nat Nat).getState) :=
  ⟨Or.inl rfl, testObservable_terminal_absorbing ⟨true, false, []⟩ 5 [1, 2] 7 (Or.inl rfl)⟩

/-! ### FormSubscriptionManager

`FormSubscriptionManager` stores per-name destroy subjects in a
`Map<string, Subject<void>>`.  `manage(source, name)` creates a fresh
subject, stores it with `Map.set` — overwriting any previous binding
WITHOUT firing it — and pipes the source through `takeUntil` of that
subject, so a managed stream is terminated by the manager exactly when
its own subject fires.  Subjects are indexed into a `SubjWorld`;
`nextId` allocates fresh indices. -/

structure FormMgr where
  entries : List (String × Nat)
  nextId : Nat
deriving DecidableEq

/-- `Map.set`: replaces the first binding of the key in place, or
appends a new binding. -/
def setKey : List (String × Nat) → String → Nat → List (String × Nat)
  | [], x, k => [(x, k)]
  | (y, v) :: rest, x, k =>
    if y = x then (x, k) :: rest else (y, v) :: setKey rest x k

/-- Number of bindings a name has in the map. -/
def countKey (l : List (String × Nat)) (x : String) : Nat :=
  (l.filter (fun p => p.1 == x)).length

/-- `manage(source, name)`: allocate a fresh subject, store it under
the name, return its index. -/
def FormMgr.manage (m : FormMgr) (x : String) : FormMgr × Nat :=
  (⟨setKey m.entries x m.nextId, m.nextId + 1⟩, m.nextId)

/-- `unsubscribe(name)`: if the name is bound, fire its subject and
delete the binding; otherwise do nothing. -/
def FormMgr.unsubscribeName (m : FormMgr) (sw : SubjWorld) (x : String) :
    FormMgr × SubjWorld :=
  match lookupKey m.entries x with
  | some k => ({ m with entries := delKey m.entries x }, updateSubj sw k fireSignal)
  | none => (m, sw)

/-- `unsubscribeAll()`: fire every stored subject, then clear. -/
def FormMgr.unsubscribeAllF (m : FormMgr) (sw : SubjWorld) : FormMgr × SubjWorld :=
  ({ m with entries := [] },
   m.entries.foldl (fun w p => updateSubj w p.2 fireSignal) sw)

/-- `getActiveCount()`: the map size. -/
def FormMgr.getActiveCount (m : FormMgr) : Nat :=
  m.entries.length

theorem lookupKey_setKey (l : List (String × Nat)) (x : String) (k : Nat) :
    lookupKey (setKey l x k) x = some k := by
  induction l with
  | nil => simp [setKey, lookupKey, List.find?]
  | cons p t ih =>
    obtain ⟨y, v⟩ := p
    by_cases h : y = x
    · simp [setKey, h, lookupKey, List.find?]
    · have hb : (y == x) = false := by simpa using h
      simp only [setKey, if_neg h]
      simpa [lookupKey, List.find?, hb] using ih

theorem mem_setKey {l : List (String × Nat)} {x : String} {k : Nat} {q : String × Nat}
    (hq : q ∈ setKey l x k) : q = (x, k) ∨ q ∈ l := by
  induction l with
  | nil => simpa [setKey] using hq
  | cons p t ih =>
    obtain ⟨y, v⟩ := p
    by_cases h : y = x
    · simp only [setKey, if_pos h] at hq
      rcases List.mem_cons.mp hq with h1 | h2
      · exact Or.inl h1
      · exact Or.inr (List.mem_cons_of_mem _ h2)
    · simp only [setKey, if_neg h] at hq
      rcases List.mem_cons.mp hq with h1 | h2
      · exact Or.inr (h1 ▸ List.mem_cons_self _ _)
      · rcases ih h2 with h3 | h4
        · exact Or.inl h3
        · exact Or.inr (List.mem_cons_of_mem _ h4)

theorem setKey_twice_ids {l : List (String × Nat)} {x : String} {k1 k2 : Nat}
    (hk : ∀ p ∈ l, p.2 ≠ k1) (hne : k2 ≠ k1) :
    ∀ q ∈ setKey (setKey l x k1) x k2, q.2 ≠ k1 := by
  induction l with
  | nil =>
    intro q hq
    simp [setKey] at hq
    simp [hq, hne]
  | cons p t ih =>
    obtain ⟨y, v⟩ := p
    by_cases h : y = x
    · intro q hq
      simp only [setKey, if_pos h, if_pos rfl] at hq
      rcases List.mem_cons.mp hq with h1 | h2
      · simp [h1, hne]
      · exact hk q (List.mem_cons_of_mem _ h2)
    · intro q hq
      simp only [setKey, if_neg h] at hq
      rcases List.mem_cons.mp hq with h1 | h2
      · exact h1 ▸ hk (y, v) (List.mem_cons_self _ _)
      · exact ih (fun p hp => hk p (List.mem_cons_of_mem _ hp)) q h2

theorem countKey_eq_zero {l : List (String × Nat)} {x : String}
    (hx : x ∉ l.map Prod.fst) : countKey l x = 0 := by
  unfold countKey
  rw [List.length_eq_zero, List.filter_eq_nil_iff]
  intro p hp
  simp only [beq_iff_eq]
  intro heq
  exact hx (heq ▸ List.mem_map_of_mem Prod.fst hp)

theorem mem_map_fst_setKey {l : List (String × Nat)} {x : String} {k : Nat} {z : String}
    (hz : z ∈ (setKey l x k).map Prod.fst) : z = x ∨ z ∈ l.map Prod.fst := by
  rcases List.mem_map.mp hz with ⟨q, hq, hq2⟩
  rcases mem_setKey hq with h1 | h2
  · left
    rw [← hq2, h1]
  · right
    exact hq2 ▸ List.mem_map_of_mem Prod.fst h2

theorem nodup_setKey (l : List (String × Nat)) (x : String) (k : Nat)
    (hnd : (l.map Prod.fst).Nodup) : ((setKey l x k).map Prod.fst).Nodup := by
  induction l with
  | nil => simp [setKey]
  | cons p t ih =>
    obtain ⟨y, v⟩ := p
    rw [List.map_cons] at hnd
    have hnd2 := List.nodup_cons.mp hnd
    by_cases h : y = x
    · simp only [setKey, if_pos h, List.map_cons, List.nodup_cons]
      exact ⟨by simpa [h] using hnd2.1, hnd2.2⟩
    · simp only [setKey, if_neg h, List.map_cons, List.nodup_cons]
      refine ⟨fun hy => ?_, ih hnd2.2⟩
      rcases mem_map_fst_setKey hy with h1 | h2
      · exact h h1
      · exact hnd2.1 h2

theorem countKey_setKey (l : List (String × Nat)) (x : String) (k : Nat)
    (hnd : (l.map Prod.fst).Nodup) : countKey (setKey l x k) x = 1 := by
  induction l with
  | nil => simp [setKey, countKey, List.filter]
  | cons p t ih =>
    obtain ⟨y, v⟩ := p
    rw [List.map_cons] at hnd
    have hnd2 := List.nodup_cons.mp hnd
    by_cases h : y = x
    · have hx : x ∉ t.map Prod.fst := by simpa [h] using hnd2.1
      have h0 : countKey t x = 0 := countKey_eq_zero hx
      unfold countKey at h0 ⊢
      simp [setKey, h, List.filter_cons, h0]
    · have hb : (y == x) = false := by simpa using h
      have := ih hnd2.2
      unfold countKey at this ⊢
      simp only [setKey, if_neg h, List.filter_cons, hb]
      simpa using this

theorem lookupKey_mem {l : List (String × Nat)} {x : String} {k : Nat}
    (h : lookupKey l x = some k) : (x, k) ∈ l := by
  unfold lookupKey at h
  rcases Option.map_eq_some'.mp h with ⟨q, hq1, hq2⟩
  have hmem := List.mem_of_find?_eq_some hq1
  have hpred := List.find?_some hq1
  obtain ⟨a, b⟩ := q
  have ha : a = x := by simpa using hpred
  have hb : b = k := hq2
  rw [← ha, ← hb]
  exact hmem

theorem foldl_fire_not_mem (l : List (String × Nat)) (sw : SubjWorld) {j : Nat}
    (hj : j ∉ l.map Prod.snd) :
    l.foldl (fun w p => updateSubj w p.2 fireSignal) sw j = sw j := by
  induction l generalizing sw with
  | nil => rfl
  | cons p t ih =>
    simp only [List.map_cons, List.mem_cons, not_or] at hj
    rw [List.foldl_cons, ih (updateSubj sw p.2 fireSignal) hj.2]
    unfold updateSubj
    simp [hj.1]

theorem foldl_fire_mem (l : List (String × Nat)) (sw : SubjWorld) {j : Nat}
    (hj : j ∈ l.map Prod.snd) :
    l.foldl (fun w p => updateSubj w p.2 fireSignal) sw j = fireSignal (sw j) := by
  induction l generalizing sw with
  | nil => simp at hj
  | cons p t ih =>
    rw [List.foldl_cons]
    by_cases h : j ∈ t.map Prod.snd
    · rw [ih _ h]
      by_cases h2 : j = p.2
      · simp [updateSubj, h2, fireSignal_idem]
      · simp [updateSubj, h2]
    · have h2 : j = p.2 := by
        simp only [List.map_cons, List.mem_cons] at hj
        tauto
      rw [foldl_fire_not_mem t _ h]
      simp [updateSubj, h2]

/-- C9.  Calling `manage` twice under the same name overwrites the
first destroy subject without firing it: the map binds the name to the
second subject only (one entry for that name), a later
`unsubscribe(name)` or `unsubscribeAll()` fires only the second subject
— the first managed stream is never terminated by the manager.  The
hypotheses are the manager's representation invariants: every stored
subject index was allocated below `nextId`, and map keys are unique. -/
theorem formManager_overwrite (m : FormMgr) (sw : SubjWorld) (x : String)
    (hb : ∀ p ∈ m.entries, p.2 < m.nextId)
    (hnd : (m.entries.map Prod.fst).Nodup) :
    (FormMgr.manage m x).2 ≠ (FormMgr.manage (FormMgr.manage m x).1 x).2 ∧
    lookupKey (FormMgr.manage (FormMgr.manage m x).1 x).1.entries x =
      some (FormMgr.manage (FormMgr.manage m x).1 x).2 ∧
    countKey (FormMgr.manage (FormMgr.manage m x).1 x).1.entries x = 1 ∧
    (FormMgr.unsubscribeName (FormMgr.manage (FormMgr.manage m x).1 x).1 sw x).2
        (FormMgr.manage m x).2 = sw (FormMgr.manage m x).2 ∧
    (FormMgr.unsubscribeName (FormMgr.manage (FormMgr.manage m x).1 x).1 sw x).2
        (FormMgr.manage (FormMgr.manage m x).1 x).2 =
      fireSignal (sw (FormMgr.manage (FormMgr.manage m x).1 x).2) ∧
    (FormMgr.unsubscribeAllF (FormMgr.manage (FormMgr.manage m x).1 x).1 sw).2
        (FormMgr.manage m x).2 = sw (FormMgr.manage m x).2 ∧
    (FormMgr.unsubscribeAllF (FormMgr.manage (FormMgr.manage m x).1 x).1 sw).2
        (FormMgr.manage (FormMgr.manage m x).1 x).2 =
      fireSignal (sw (FormMgr.manage (FormMgr.manage m x).1 x).2) := by
  have hk1 : (FormMgr.manage m x).2 = m.nextId := rfl
  have hk2 : (FormMgr.manage (FormMgr.manage m x).1 x).2 = m.nextId + 1 := rfl
  have hE2 : (FormMgr.manage (FormMgr.manage m x).1 x).1.entries =
      setKey (setKey m.entries x m.nextId) x (m.nextId + 1) := rfl
  have hlk : lookupKey (FormMgr.manage (FormMgr.manage m x).1 x).1.entries x =
      some (m.nextId + 1) := by
    rw [hE2]
    exact lookupKey_setKey _ _ _
  have hids : ∀ q ∈ setKey (setKey m.entries x m.nextId) x (m.nextId + 1),
      q.2 ≠ m.nextId := by
    refine setKey_twice_ids (fun p hp => ?_) (by omega)
    exact Nat.ne_of_lt (hb p hp)
  have hk1notin : m.nextId ∉
      ((FormMgr.manage (FormMgr.manage m x).1 x).1.entries.map Prod.snd) := by
    rw [hE2]
    intro hmem
    rcases List.mem_map.mp hmem with ⟨q, hq, hq2⟩
    exact hids q hq hq2
  have hk2in : m.nextId + 1 ∈
      ((FormMgr.manage (FormMgr.manage m x).1 x).1.entries.map Prod.snd) := by
    have := lookupKey_mem hlk
    exact List.mem_map_of_mem Prod.snd this
  refine ⟨by simp [FormMgr.manage], ?_, ?_, ?_, ?_, ?_, ?_⟩
  · rw [hlk, hk2]
  · rw [hE2]
    exact countKey_setKey _ _ _ (nodup_setKey _ _ _ hnd)
  · rw [FormMgr.unsubscribeName, hlk]
    simp only [hk1]
    unfold updateSubj
    simp
  · rw [FormMgr.unsubscribeName, hlk]
    simp only [hk2]
    unfold updateSubj
    simp
  · rw [FormMgr.unsubscribeAllF]
    simp only [hk1]
    exact foldl_fire_not_mem _ _ hk1notin
  · rw [FormMgr.unsubscribeAllF]
    simp only [hk2]
    exact foldl_fire_mem _ _ hk2in

/-- A fresh form-subscription manager. -/
def c9Mgr : FormMgr := ⟨[], 0⟩

/-- A world of fresh subjects. -/
def c9World : SubjWorld := fun _ => freshSubj

/-- C9 witness: the double-manage scenario on a fresh manager. -/
theorem formManager_overwrite_witness :
    ((∀ p ∈ c9Mgr.entries, p.2 < c9Mgr.nextId) ∧
      (c9Mgr.entries.map Prod.fst).Nodup) ∧
    ((FormMgr.manage c9Mgr "f").2 ≠ (FormMgr.manage (FormMgr.manage c9Mgr "f").1 "f").2 ∧
    lookupKey (FormMgr.manage (FormMgr.manage c9Mgr "f").1 "f").1.entries "f" =
      some (FormMgr.manage (FormMgr.manage c9Mgr "f").1 "f").2 ∧
    countKey (FormMgr.manage (FormMgr.manage c9Mgr "f").1 "f").1.entries "f" = 1 ∧
    (FormMgr.unsubscribeName (FormMgr.manage (FormMgr.manage c9Mgr "f").1 "f").1 c9World "f").2
        (FormMgr.manage c9Mgr "f").2 = c9World (FormMgr.manage c9Mgr "f").2 ∧
    (FormMgr.unsubscribeName (FormMgr.manage (FormMgr.manage c9Mgr "f").1 "f").1 c9World "f").2
        (FormMgr.manage (FormMgr.manage c9Mgr "f").1 "f").2 =
      fireSignal (c9World (FormMgr.manage (FormMgr.manage c9Mgr "f").1 "f").2) ∧
    (FormMgr.unsubscribeAllF (FormMgr.manage (FormMgr.manage c9Mgr "f").1 "f").1 c9World).2
        (FormMgr.manage c9Mgr "f").2 = c9World (FormMgr.manage c9Mgr "f").2 ∧
    (FormMgr.unsubscribeAllF (FormMgr.manage (FormMgr.manage c9Mgr "f").1 "f").1 c9World).2
        (FormMgr.manage (FormMgr.manage c9Mgr "f").1 "f").2 =
      fireSignal (c9World (FormMgr.manage (FormMgr.manage c9Mgr "f").1 "f").2)) :=
  ⟨⟨by simp [c9Mgr], by simp [c9Mgr]⟩,
    formManager_overwrite c9Mgr c9World "f" (by simp [c9Mgr]) (by simp [c9Mgr])⟩
